import Mathlib

/-!
Verification of the rigid-multibody specification of this repository against
its sources.  The repository payload contains the pendulum example
(`Simbody/examples/ExamplePendulum.cpp`), the XML utility header
(`trunk/include/SimTKcommon/internal/Xml.h`) and an optimizer test; the
multibody engine itself (SimbodyMatterSubsystem, Constraint, State) is not
part of the payload, so the engine-level operations are modelled from the
specification, as indicated on each definition.  The XML element-attribute
operations are embedded directly from `Xml.h`.

Scalars of the C++ engine are `double`; they are embedded as exact scalars:
definitions that only need ring arithmetic are stated over an arbitrary
commutative ring (instantiated at `ℚ` for executable witnesses and at `ℝ`
for the claims about physical trajectories).
-/

namespace SimbodySpec

/-- A 3-vector over the scalar ring `R`, embedding SimTK `Vec3`
(components accessed as `.1`, `.2.1`, `.2.2`). -/
abbrev Vec3 (R : Type) := R × R × R

/-- A spatial vector over `R`, embedding SimTK `SpatialVec`: the pair of a
rotational (torque / angular velocity) part and a translational (force /
linear velocity) part. -/
abbrev SpatialVec (R : Type) := Vec3 R × Vec3 R

variable {R : Type} [CommRing R]

/-- Vector cross product on `Vec3`. -/
def cross (a b : Vec3 R) : Vec3 R :=
  (a.2.1 * b.2.2 - a.2.2 * b.2.1,
   a.2.2 * b.1 - a.1 * b.2.2,
   a.1 * b.2.1 - a.2.1 * b.1)

/-- Vector dot product on `Vec3`. -/
def dot (a b : Vec3 R) : R :=
  a.1 * b.1 + a.2.1 * b.2.1 + a.2.2 * b.2.2

/-- Modelled from the spec (the helper `shiftForceBy` called by the example
is not in the payload): re-pivot a spatial force, applied at some point `P`
of a body, to the point displaced from `P` by `p`; the torque gains the
moment correction `-(p × f)` and the force part is unchanged. -/
def shiftForceBy (F : SpatialVec R) (p : Vec3 R) : SpatialVec R :=
  (F.1 - cross p F.2, F.2)

/-- Modelled from the spec (the helper `shiftForceFromTo` called by the
example is not in the payload): shift a spatial force from pivot point `a`
to pivot point `b`, both expressed in the same frame. -/
def shiftForceFromTo (F : SpatialVec R) (a b : Vec3 R) : SpatialVec R :=
  shiftForceBy F (b - a)

/-- Modelled from the spec (the `State` stage ladder of the engine is not in
the payload): the totally ordered realization-stage ladder
Topology → Model → Instance → Time → Position → Velocity → Dynamics →
Acceleration → Report. -/
inductive Stage
  | topology
  | modelStage
  | instanceStage
  | time
  | position
  | velocity
  | dynamics
  | acceleration
  | report
deriving DecidableEq

/-- Numeric height of a stage in the ladder, used to order stages. -/
def Stage.toNat : Stage → Nat
  | .topology => 0
  | .modelStage => 1
  | .instanceStage => 2
  | .time => 3
  | .position => 4
  | .velocity => 5
  | .dynamics => 6
  | .acceleration => 7
  | .report => 8

instance : LE Stage := ⟨fun a b => a.toNat ≤ b.toNat⟩

instance : LT Stage := ⟨fun a b => a.toNat < b.toNat⟩

instance (a b : Stage) : Decidable (a ≤ b) :=
  inferInstanceAs (Decidable (a.toNat ≤ b.toNat))

instance (a b : Stage) : Decidable (a < b) :=
  inferInstanceAs (Decidable (a.toNat < b.toNat))

/-- Modelled from the spec: the error taxonomy of the engine (the exception
classes themselves are not in the payload). -/
inductive SimError
  | topologyError
  | stageError
  | configurationError
  | singularSystemError
deriving DecidableEq

/-- Modelled from the spec (the engine's `Constraint` classes are not in the
payload): the constraint kinds used by the pendulum example. -/
inductive ConstraintKind
  | ball
  | constantAngle
deriving DecidableEq

/-- Modelled from the spec: the fixed number of scalar constraint equations
contributed by each constraint kind (Ball: 3, ConstantAngle: 1). -/
def numScalarEquations : ConstraintKind → Nat
  | .ball => 3
  | .constantAngle => 1

/-- Total scalar constraint-equation count of a list of constraint kinds. -/
def totalEquations (ks : List ConstraintKind) : Nat :=
  (ks.map numScalarEquations).sum

/-- The constraint set built by the pendulum example: `ballcons2`, `angx2`,
`angy2`, `ballcons2b`, `angx2b`, `angy2b` (two Ball and four ConstantAngle
constraints). -/
def examplePendulumConstraints : List ConstraintKind :=
  [.ball, .constantAngle, .constantAngle, .ball, .constantAngle, .constantAngle]

/-- Modelled from the spec (the engine's `State` class is not in the
payload): the mutable simulation state — generalized coordinates `q`,
generalized speeds `u`, Lagrange multipliers `lambda`, the highest realized
stage, and the per-stage cache of derived values.  Scalars are embedded as
exact rationals. -/
@[ext]
structure SimState where
  q : List ℚ
  u : List ℚ
  lambda : List ℚ
  realizedThrough : Stage
  cache : Stage → Option (List ℚ)

/-- Modelled from the spec: the derived values cached at a given stage are a
pure function of `(q, u, lambda)` (the actual kinematics formulas of the
engine are not in the payload; any fixed deterministic function yields the
same caching behaviour, so the concatenation of the inputs is used). -/
def computeCache (_stg : Stage) (q u lambda : List ℚ) : List ℚ :=
  q ++ u ++ lambda

/-- Modelled from the spec: `realize(stage)` computes and caches the values
for the requested stage and every un-realized lower stage, leaving already
realized stages untouched, and raises the realized-through marker. -/
def realize (target : Stage) (s : SimState) : SimState :=
  { s with
    realizedThrough :=
      if s.realizedThrough ≤ target then target else s.realizedThrough
    cache := fun stg =>
      if stg ≤ target then
        match s.cache stg with
        | some v => some v
        | none => some (computeCache stg s.q s.u s.lambda)
      else s.cache stg }

/-- Modelled from the spec: reading a stage-derived cached quantity; fails
with `StageError` when the requested stage has not been realized. -/
def getCachedQuantity (s : SimState) (stg : Stage) : Except SimError (List ℚ) :=
  if stg ≤ s.realizedThrough then
    .ok ((s.cache stg).getD [])
  else
    .error .stageError

/-- The lower of two stages. -/
def stageMin (a b : Stage) : Stage := if a ≤ b then a else b

/-- Modelled from the spec: the operations the exposed API performs on a
`State` (set a coordinate, speed or multiplier entry; realize a stage). -/
inductive StateOp
  | setQ (i : Nat) (v : ℚ)
  | setU (i : Nat) (v : ℚ)
  | setLambda (i : Nat) (v : ℚ)
  | realizeTo (stg : Stage)

/-- Modelled from the spec: applying one state operation.  Mutating `q`
invalidates the cache from Position upward, mutating `u` from Velocity
upward, mutating `lambda` from Acceleration upward; `realize` fills the
cache. -/
def applyOp (op : StateOp) (s : SimState) : SimState :=
  match op with
  | .setQ i v =>
      { s with
        q := s.q.set i v
        realizedThrough := stageMin s.realizedThrough .time
        cache := fun stg => if Stage.position ≤ stg then none else s.cache stg }
  | .setU i v =>
      { s with
        u := s.u.set i v
        realizedThrough := stageMin s.realizedThrough .position
        cache := fun stg => if Stage.velocity ≤ stg then none else s.cache stg }
  | .setLambda i v =>
      { s with
        lambda := s.lambda.set i v
        realizedThrough := stageMin s.realizedThrough .dynamics
        cache := fun stg => if Stage.acceleration ≤ stg then none else s.cache stg }
  | .realizeTo stg => realize stg s

/-- Applying a list of state operations in order. -/
def runOps (ops : List StateOp) (s : SimState) : SimState :=
  ops.foldl (fun s op => applyOp op s) s

/-- Modelled from the spec: the default state produced after topology
realization, whose multiplier vector has one entry per scalar constraint
equation. -/
def defaultState (ks : List ConstraintKind) : SimState :=
  { q := []
    u := []
    lambda := List.replicate (totalEquations ks) 0
    realizedThrough := .topology
    cache := fun _ => none }

section ConstraintForces

variable {R : Type} [CommRing R]

/-- Modelled from the spec (the engine's constraint implementation is not in
the payload): one registered constraint instance — its kind (which fixes its
scalar equation count), the bodies it touches, and its constraint Jacobian
transpose: `jacT b i` is the spatial force applied to body `b` per unit
multiplier of the constraint's `i`-th scalar equation, and `mobJacT i m` the
corresponding generalized force on mobility `m`. -/
structure ConstraintInfo (R : Type) where
  kind : ConstraintKind
  touches : List Nat
  jacT : Nat → Nat → SpatialVec R
  mobJacT : Nat → Nat → R

instance : Inhabited (ConstraintInfo R) :=
  ⟨⟨.ball, [], fun _ _ => 0, fun _ _ => 0⟩⟩

/-- Number of scalar equations contributed by one constraint instance. -/
def eqCount (c : ConstraintInfo R) : Nat := numScalarEquations c.kind

/-- The spatial force one constraint applies to body `b` for a given slice
of the multiplier vector: the slice mapped through the constraint Jacobian
transpose; bodies the constraint does not touch receive nothing. -/
def constraintBodyForce (c : ConstraintInfo R) (lamSlice : List R) (b : Nat) :
    SpatialVec R :=
  if b ∈ c.touches then
    ∑ i in Finset.range (eqCount c), lamSlice.getD i 0 • c.jacT b i
  else 0

/-- The generalized force one constraint applies to mobility `m` for a given
slice of the multiplier vector. -/
def constraintMobForce (c : ConstraintInfo R) (lamSlice : List R) (m : Nat) : R :=
  ∑ i in Finset.range (eqCount c), lamSlice.getD i 0 * c.mobJacT i m

/-- Operational accumulation of per-body constraint forces over the
constraint list, indexing the full multiplier vector with a running offset
(the way the engine walks the assembled multiplier array). -/
def accumBodyForces : List (ConstraintInfo R) → List R → Nat → Nat → SpatialVec R
  | [], _, _, _ => 0
  | c :: rest, lam, off, b =>
      (if b ∈ c.touches then
        ∑ i in Finset.range (eqCount c), lam.getD (off + i) 0 • c.jacT b i
      else 0) + accumBodyForces rest lam (off + eqCount c) b

/-- Operational accumulation of per-mobility generalized constraint forces
over the constraint list, with a running offset into the multiplier
vector. -/
def accumMobForces : List (ConstraintInfo R) → List R → Nat → Nat → R
  | [], _, _, _ => 0
  | c :: rest, lam, off, m =>
      (∑ i in Finset.range (eqCount c), lam.getD (off + i) 0 * c.mobJacT i m)
      + accumMobForces rest lam (off + eqCount c) m

/-- Total scalar constraint-equation count of a list of constraint
instances. -/
def totalEquationCount (cs : List (ConstraintInfo R)) : Nat :=
  (cs.map eqCount).sum

/-- Offset of the `k`-th constraint's slice in the multiplier vector. -/
def offsetOf (cs : List (ConstraintInfo R)) (k : Nat) : Nat :=
  ((cs.take k).map eqCount).sum

/-- The `k`-th constraint's slice of the multiplier vector. -/
def lambdaSlice (cs : List (ConstraintInfo R)) (lam : List R) (k : Nat) : List R :=
  (lam.drop (offsetOf cs k)).take (eqCount (cs.getD k default))

/-- Modelled from the spec:
`calcConstraintForcesFromMultipliers(state, lambda)` maps each constraint's
slice of `lambda` through its Jacobian transpose, producing the spatial
force applied to each body and the generalized force applied to each
mobility; it requires the state to be realized through Position stage and
fails with `StageError` otherwise. -/
def calcConstraintForcesFromMultipliers (realized : Stage)
    (cs : List (ConstraintInfo R)) (lam : List R) :
    Except SimError ((Nat → SpatialVec R) × (Nat → R)) :=
  if Stage.position ≤ realized then
    .ok (accumBodyForces cs lam 0, accumMobForces cs lam 0)
  else
    .error .stageError

/-- Modelled from the spec's design note: the single documented sign
transform from the force a constraint exerts on a body to the complementary
reaction force — a negation. -/
def multiplierToReactionForce (cs : List (ConstraintInfo R)) (lam : List R)
    (b : Nat) : SpatialVec R :=
  -(accumBodyForces cs lam 0 b)

/-- Sum of a list of spatial vectors. -/
def sumSV : List (SpatialVec R) → SpatialVec R :=
  fun l => l.foldr (· + ·) 0

end ConstraintForces

/-- A concrete constraint instance over `ℚ` used to witness the
constraint-force theorems. -/
def exampleBallConstraint : ConstraintInfo ℚ :=
  { kind := .ball
    touches := [0, 1]
    jacT := fun b i => (((b : ℚ) + i, 0, 1), (1, (i : ℚ), 0))
    mobJacT := fun i m => (i : ℚ) + m }

/-- A concrete constraint instance over `ℚ` used to witness the
constraint-force theorems. -/
def exampleAngleConstraint : ConstraintInfo ℚ :=
  { kind := .constantAngle
    touches := [1]
    jacT := fun b i => ((0, (b : ℚ), 0), ((i : ℚ), 2, 1))
    mobJacT := fun i m => (i : ℚ) * m }

/-- A concrete state realized exactly through Time stage, used to witness
the stage-error theorem. -/
def exampleTimeState : SimState :=
  { q := [], u := [], lambda := []
    realizedThrough := .time
    cache := fun _ => none }

/-- Modelled from the spec: the mobilizer kinds used by the example. -/
inductive MobilizerKind
  | pin
  | free
  | weld
deriving DecidableEq

/-- Modelled from the spec: one non-Ground node of the kinematic tree — the
index of its parent body and the mobilizer connecting it to that parent. -/
structure BodyRec where
  parent : Nat
  mobilizer : MobilizerKind
deriving DecidableEq

/-- Modelled from the spec (the engine's matter subsystem is not in the
payload): the body/mobilizer topology.  Ground is body 0; the body stored at
list position `k` has body index `k + 1`.  `finalized` records whether
`realizeTopology` has been called, after which the tree is frozen. -/
structure MatterTopology where
  bodies : List BodyRec
  finalized : Bool
deriving DecidableEq

/-- Modelled from the spec: `addBody` appends a new leaf and returns its
index; it fails with `TopologyError` when the topology has been finalized or
the parent index does not name Ground or an existing body. -/
def addBody (t : MatterTopology) (parent : Nat) (mob : MobilizerKind) :
    Except SimError (MatterTopology × Nat) :=
  if t.finalized then
    .error .topologyError
  else if parent < t.bodies.length + 1 then
    .ok ({ t with bodies := t.bodies ++ [⟨parent, mob⟩] }, t.bodies.length + 1)
  else
    .error .topologyError

/-- Modelled from the spec: `realizeTopology` finalizes the topology,
freezing the tree. -/
def realizeTopology (t : MatterTopology) : MatterTopology :=
  { t with finalized := true }

/-- A concrete un-finalized topology used to witness the topology-error
theorem. -/
def emptyMatterTopology : MatterTopology :=
  { bodies := [], finalized := false }

section ReactionForces

variable {R : Type} [CommRing R]

/-- Modelled from the spec (the engine's reaction-force recovery is not in
the payload): the spatial force transmitted through the mobilizer of body
`i` of an `nb`-body tree, recovered leaf-to-root — the body's own net
spatial-force requirement `own i` plus the already-recovered reactions of
its children (bodies whose `parent` is `i`; in the index-based tree a child
always has a larger index than its parent). -/
def reactionAt (nb : Nat) (parent : Nat → Nat) (own : Nat → SpatialVec R)
    (i : Nat) : SpatialVec R :=
  own i +
    ∑ j in ((Finset.range nb).filter (fun j => parent j = i ∧ i < j)).attach,
      reactionAt nb parent own j.1
termination_by nb - i
decreasing_by
  have hj := j.2
  simp only [Finset.mem_filter, Finset.mem_range] at hj
  omega

/-- The total spatial force transmitted into Ground: the sum of the
reactions of Ground's children. -/
def totalForceIntoGround (nb : Nat) (parent : Nat → Nat)
    (own : Nat → SpatialVec R) : SpatialVec R :=
  ∑ j in (Finset.range nb).filter (fun j => parent j = 0 ∧ 0 < j),
    reactionAt nb parent own j

/-- Modelled from the spec: `calcMobilizerReactionForces` — one entry per
body; position 0 is reserved for Ground and reports the force needed to
hold the whole assembly fixed (the negative of the total force transmitted
into Ground); every other position holds that body's mobilizer reaction. -/
def calcMobilizerReactionForces (nb : Nat) (parent : Nat → Nat)
    (own : Nat → SpatialVec R) : List (SpatialVec R) :=
  (List.range nb).map
    (fun i => if i = 0 then -(totalForceIntoGround nb parent own)
      else reactionAt nb parent own i)

end ReactionForces

namespace Xml

/-- Embedded from `Xml.h`: an XML attribute, a name/value pair. -/
structure Attribute where
  name : String
  value : String
deriving DecidableEq

/-- Embedded from `Xml.h`: an XML element, reduced to the attribute list the
claim is about; the list order is the order `attribute_begin()` iterates. -/
structure Element where
  attributes : List Attribute
deriving DecidableEq

/-- Embedded from `Xml.h` (`find_attribute`): walk the attributes from
`attribute_begin()` towards `attribute_end()` and return the first one whose
name equals `name`; `none` plays the role of `attribute_end()`. -/
def find_attribute (e : Element) (nm : String) : Option Attribute :=
  e.attributes.find? (fun a => a.name == nm)

/-- Embedded from `Xml.h` (`getOptionalAttributeValue`): if `find_attribute`
returns `attribute_end()` the supplied default is returned, otherwise the
found attribute's value. -/
def getOptionalAttributeValue (e : Element) (nm dflt : String) : String :=
  match find_attribute e nm with
  | none => dflt
  | some a => a.value

end Xml

/-- A concrete element whose single attribute `a` has the value `d`, used to
refute the biconditional reading of the optional-attribute claim. -/
def sampleElement : Xml.Element :=
  { attributes := [{ name := "a", value := "d" }] }

/-!
Pendulum dynamics, modelled from the spec and the example's data: the
pendulum body has mass 1, unit central inertia, and its outboard (mobilizer)
frame at `(0, 1, 0)` in the body frame, so the attachment point sits one
unit along body `+y` from the mass center; gravity is the uniform field
`(10, -9.8, 3)`.  `pendulum1` hangs from a Pin mobilizer (rotation about the
ground-frame z axis through the attachment point); `pendulum2` hangs from a
Free mobilizer with a Ball constraint pinning the same body point to the
ground point and two ConstantAngle constraints pinning the angle between the
ground x (resp. y) axis and the body z axis, which freezes every rotational
freedom except rotation about z.  On that constraint manifold the
configuration is the single angle `th` about z, exactly the Pin coordinate.
Scalars are exact reals; the engine's doubles and the integrator tolerance
are replaced by exact trajectory equality, which implies agreement within
any integration tolerance.
-/

/-- The uniform gravity vector of the example (`Vec3(10, -9.8, 3)`); acting
on the unit-mass body it is also the gravity force at the mass center. -/
noncomputable def gravityVec : Vec3 ℝ := (10, -9.8, 3)

/-- Rotation about the ground z axis by angle `th`, applied to a vector. -/
noncomputable def rotZ (th : ℝ) (v : Vec3 ℝ) : Vec3 ℝ :=
  (Real.cos th * v.1 - Real.sin th * v.2.1,
   Real.sin th * v.1 + Real.cos th * v.2.1,
   v.2.2)

/-- Ground-frame x axis, the first ConstantAngle constraint's ground
vector. -/
noncomputable def exAxis : Vec3 ℝ := (1, 0, 0)

/-- Ground-frame y axis, the second ConstantAngle constraint's ground
vector. -/
noncomputable def eyAxis : Vec3 ℝ := (0, 1, 0)

/-- Ground-frame z axis; the body-frame z axis of the example coincides with
it at zero angle. -/
noncomputable def ezAxis : Vec3 ℝ := (0, 0, 1)

/-- Vector from the body mass center to the constrained body point
`(0, 1, 0)`, expressed in ground, when the body is rotated by `th` about
z. -/
noncomputable def comToBallPoint (th : ℝ) : Vec3 ℝ := rotZ th (0, 1, 0)

/-- Vector from the pivot (attachment point) to the mass center at angle
`th`. -/
noncomputable def pivotToCom (th : ℝ) : Vec3 ℝ := -(comToBallPoint th)

/-- Mass-center position of the constrained free body (`pendulum2`) at angle
`th`: the ground attachment point `(2, -1, 0)` plus the pivot-to-center
vector. -/
noncomputable def comPosOnManifold (th : ℝ) : Vec3 ℝ :=
  ((2 : ℝ), -1, 0) + pivotToCom th

/-- Position residual of the Ball constraint on the parametrized manifold:
the constrained body point minus the ground point it is pinned to. -/
noncomputable def ballResidual (th : ℝ) : Vec3 ℝ :=
  (comPosOnManifold th + comToBallPoint th) - ((2 : ℝ), -1, 0)

/-- Position residual of the first ConstantAngle constraint (ground x axis
against body z axis; the pinned angle is a right angle, so the residual is
the dot product). -/
noncomputable def angleResidualX (th : ℝ) : ℝ := dot exAxis (rotZ th ezAxis)

/-- Position residual of the second ConstantAngle constraint (ground y axis
against body z axis). -/
noncomputable def angleResidualY (th : ℝ) : ℝ := dot eyAxis (rotZ th ezAxis)

/-- Torque of gravity about the pin axis (the ground z axis through the
attachment point) at angle `th`. -/
noncomputable def pinTorque (th : ℝ) : ℝ :=
  (cross (pivotToCom th) gravityVec).2.2

/-- Moment of inertia of the body about the pin axis: unit central inertia
plus mass times the squared 1-unit center offset (parallel-axis theorem). -/
noncomputable def pinInertiaAboutAxis : ℝ := 2

/-- The Pin mobilizer's single equation of motion: angular acceleration as
torque over moment of inertia about the pin axis. -/
noncomputable def pinAccel (th : ℝ) : ℝ := pinTorque th / pinInertiaAboutAxis

/-- Mass-center acceleration of the constrained free body on the manifold,
at angle `th`, angular rate `om` and angular acceleration `a` (the second
time derivative of `comPosOnManifold th`). -/
noncomputable def comAccelOnManifold (th om a : ℝ) : Vec3 ℝ :=
  a • rotZ th ((1 : ℝ), 0, 0) + (om ^ 2) • rotZ th ((0 : ℝ), 1, 0)

/-- Modelled from the spec: the Newton–Euler balance of the constrained free
body on the manifold.  Unknowns are the Ball constraint's reaction force
`Fc` (applied at the constrained body point) and the two ConstantAngle
multiplier torques `lx`, `ly` acting about the axes perpendicular to the
constrained vector pairs.  The first equation is Newton's law for the unit
mass, the second is Euler's law for the unit inertia about the mass center
(the angular velocity is parallel to z, so the gyroscopic term vanishes
for the unit inertia). -/
def freeNewtonEuler (th om a : ℝ) : Prop :=
  ∃ (Fc : Vec3 ℝ) (lx ly : ℝ),
    comAccelOnManifold th om a = gravityVec + Fc ∧
    ((0 : ℝ), (0 : ℝ), a)
      = cross (comToBallPoint th) Fc
        + lx • cross exAxis (rotZ th ezAxis)
        + ly • cross eyAxis (rotZ th ezAxis)

/-- A Pin-pendulum trajectory: the angle's derivative is the rate and the
rate's derivative is the Pin mobilizer's equation of motion. -/
def PinTrajectory (th om : ℝ → ℝ) : Prop :=
  ∀ t, HasDerivAt th (om t) t ∧ HasDerivAt om (pinAccel (th t)) t

/-- A trajectory of the Free-mobilizer body under the Ball and two
ConstantAngle constraints: the angle's derivative is the rate and the rate's
derivative is an angular acceleration satisfying the constrained
Newton–Euler balance. -/
def FreeConstrainedTrajectory (th om : ℝ → ℝ) : Prop :=
  ∀ t, HasDerivAt th (om t) t ∧
    ∃ a, freeNewtonEuler (th t) (om t) a ∧ HasDerivAt om a t

/-- The first-order vector field of the pendulum on `(angle, rate)`
states. -/
noncomputable def pendulumField : ℝ → ℝ × ℝ → ℝ × ℝ :=
  fun _ p => (p.2, pinAccel p.1)

/-- The static equilibrium angle of the pendulum under the example's gravity
(the pole aligned with the in-plane gravity direction). -/
noncomputable def equilibriumAngle : ℝ := Real.arctan (10 / 9.8)

end SimbodySpec

namespace SimbodySpec

/-- Claim C3: shifting a spatial force from pivot `p` to pivot `q` and then
shifting the result back from `q` to `p` returns the original spatial force
exactly (so in particular to numerical tolerance). -/
theorem shift_then_unshift_id (F : SpatialVec ℝ) (p q : Vec3 ℝ) :
    shiftForceFromTo (shiftForceFromTo F p q) q p = F := by
  obtain ⟨⟨t1, t2, t3⟩, ⟨f1, f2, f3⟩⟩ := F
  obtain ⟨p1, p2, p3⟩ := p
  obtain ⟨q1, q2, q3⟩ := q
  simp only [shiftForceFromTo, shiftForceBy, cross, Prod.mk.injEq,
    Prod.fst, Prod.snd, Prod.mk_sub_mk]
  exact ⟨⟨by ring, by ring, by ring⟩, trivial⟩

theorem stage_le_refl (a : Stage) : a ≤ a := Nat.le.refl

theorem applyOp_lambda_length (op : StateOp) (s : SimState) :
    ((applyOp op s).lambda).length = s.lambda.length := by
  cases op <;> simp [applyOp, realize, List.length_set]

theorem runOps_lambda_length (ops : List StateOp) (s : SimState) :
    ((runOps ops s).lambda).length = s.lambda.length := by
  induction ops generalizing s with
  | nil => rfl
  | cons op rest ih =>
      show ((runOps rest (applyOp op s)).lambda).length = _
      rw [ih, applyOp_lambda_length]

/-- Claim C6: for every finalized topology the multiplier vector has exactly
one entry per scalar constraint equation (Ball contributing 3 equations and
ConstantAngle 1; the example's two Ball and four ConstantAngle constraints
give 10), and the length is preserved by every sequence of operations on the
State. -/
theorem multiplier_length_invariant (ks : List ConstraintKind)
    (ops : List StateOp) :
    ((runOps ops (defaultState ks)).lambda).length = totalEquations ks ∧
    numScalarEquations .ball = 3 ∧
    numScalarEquations .constantAngle = 1 ∧
    totalEquations examplePendulumConstraints = 10 := by
  refine ⟨?_, rfl, rfl, rfl⟩
  rw [runOps_lambda_length]
  simp [defaultState]

/-- Claim C7: reading a stage-`S`-derived cached quantity from a state in
which only stages up to `S - 1` have been realized fails with `StageError`;
in particular requesting constraint forces with any state not realized
through Position fails with `StageError`. -/
theorem unrealized_read_stage_error (s : SimState) (S : Stage)
    (h : s.realizedThrough.toNat + 1 = S.toNat) :
    getCachedQuantity s S = .error .stageError ∧
    ∀ (r : Stage) (cs : List (ConstraintInfo ℚ)) (lam : List ℚ),
      ¬ Stage.position ≤ r →
      calcConstraintForcesFromMultipliers r cs lam = .error .stageError := by
  constructor
  · have hlt : ¬ S ≤ s.realizedThrough := by
      show ¬ S.toNat ≤ s.realizedThrough.toNat
      omega
    simp [getCachedQuantity, hlt]
  · intro r cs lam hr
    simp [calcConstraintForcesFromMultipliers, hr]

/-- Witness for C7: the concrete state realized through Time stage hits the
`StageError` branch when Position-stage data is requested. -/
theorem unrealized_read_stage_error_witness :
    (exampleTimeState.realizedThrough.toNat + 1 = Stage.position.toNat) ∧
    (getCachedQuantity exampleTimeState Stage.position = .error .stageError ∧
      ∀ (r : Stage) (cs : List (ConstraintInfo ℚ)) (lam : List ℚ),
        ¬ Stage.position ≤ r →
        calcConstraintForcesFromMultipliers r cs lam = .error .stageError) :=
  ⟨rfl, unrealized_read_stage_error exampleTimeState Stage.position rfl⟩

theorem getD_drop_take {α : Type} (l : List α) (d : α) (off n i : Nat)
    (h : i < n) :
    ((l.drop off).take n).getD i d = l.getD (off + i) d := by
  rw [List.getD_eq_getElem?_getD, List.getD_eq_getElem?_getD,
    List.getElem?_take, if_pos h, List.getElem?_drop]

theorem sumSV_cons {R : Type} [CommRing R] (x : SpatialVec R)
    (l : List (SpatialVec R)) : sumSV (x :: l) = x + sumSV l := rfl

theorem offsetOf_cons_succ {R : Type} [CommRing R] (c : ConstraintInfo R)
    (rest : List (ConstraintInfo R)) (k : Nat) :
    offsetOf (c :: rest) (k + 1) = eqCount c + offsetOf rest k := by
  simp [offsetOf, List.take_succ_cons]

theorem accumBodyForces_eq_sum {R : Type} [CommRing R]
    (cs : List (ConstraintInfo R)) (lam : List R) (off b : Nat) :
    accumBodyForces cs lam off b =
      sumSV ((List.range cs.length).map
        (fun k => constraintBodyForce (cs.getD k default)
          ((lam.drop (off + offsetOf cs k)).take (eqCount (cs.getD k default))) b)) := by
  induction cs generalizing off with
  | nil => simp [accumBodyForces, sumSV]
  | cons c rest ih =>
      rw [show (c :: rest).length = rest.length + 1 from rfl,
        List.range_succ_eq_map, List.map_cons, List.map_map, sumSV_cons]
      show accumBodyForces (c :: rest) lam off b = _ + _
      rw [accumBodyForces]
      refine congrArg₂ (· + ·) ?_ ?_
      · simp only [List.getD_cons_zero, constraintBodyForce]
        by_cases hb : b ∈ c.touches
        · rw [if_pos hb, if_pos hb]
          refine Finset.sum_congr rfl fun i hi => ?_
          rw [getD_drop_take _ _ _ _ _ (Finset.mem_range.mp hi)]
          simp [offsetOf]
        · rw [if_neg hb, if_neg hb]
      · rw [ih (off + eqCount c)]
        refine congrArg sumSV (List.map_congr_left fun k _ => ?_)
        simp only [Function.comp_apply, List.getD_cons_succ, offsetOf_cons_succ]
        have harith : off + (eqCount c + offsetOf rest k)
            = off + eqCount c + offsetOf rest k := by omega
        rw [harith]

/-- Claim C2: for every state realized through at least Position stage and
every multiplier vector, `calcConstraintForcesFromMultipliers` succeeds and
returns, for each body, the sum over the constraints of that constraint's
slice of the multiplier vector mapped through its constraint Jacobian
transpose (zero for bodies a constraint does not touch); the returned force
is the force the constraint set exerts on the body, and the documented
reaction transform is its negation. -/
theorem calcConstraintForces_from_multipliers_spec {R : Type} [CommRing R]
    (realized : Stage) (cs : List (ConstraintInfo R)) (lam : List R)
    (h : Stage.position ≤ realized) :
    ∃ bodyF mobF,
      calcConstraintForcesFromMultipliers realized cs lam = .ok (bodyF, mobF) ∧
      (∀ b, bodyF b =
        sumSV ((List.range cs.length).map
          (fun k => constraintBodyForce (cs.getD k default)
            (lambdaSlice cs lam k) b))) ∧
      (∀ b, multiplierToReactionForce cs lam b = -(bodyF b)) := by
  refine ⟨accumBodyForces cs lam 0, accumMobForces cs lam 0, ?_, ?_, ?_⟩
  · simp [calcConstraintForcesFromMultipliers, h]
  · intro b
    rw [accumBodyForces_eq_sum]
    simp only [Nat.zero_add, lambdaSlice]
  · intro b
    rfl

/-- Witness for C2: the spec theorem applied to a concrete Ball constraint
and ConstantAngle constraint over `ℚ` in a Velocity-realized state. -/
theorem calcConstraintForces_from_multipliers_spec_witness :
    (Stage.position ≤ Stage.velocity) ∧
    (∃ bodyF mobF,
      calcConstraintForcesFromMultipliers Stage.velocity
        [exampleBallConstraint, exampleAngleConstraint]
        ([1, 2, 3, 4] : List ℚ) = .ok (bodyF, mobF) ∧
      (∀ b, bodyF b =
        sumSV ((List.range
            ([exampleBallConstraint, exampleAngleConstraint].length)).map
          (fun k => constraintBodyForce
            ([exampleBallConstraint, exampleAngleConstraint].getD k default)
            (lambdaSlice [exampleBallConstraint, exampleAngleConstraint]
              ([1, 2, 3, 4] : List ℚ) k) b))) ∧
      (∀ b, multiplierToReactionForce
          [exampleBallConstraint, exampleAngleConstraint]
          ([1, 2, 3, 4] : List ℚ) b = -(bodyF b))) :=
  ⟨by decide,
    calcConstraintForces_from_multipliers_spec Stage.velocity
      [exampleBallConstraint, exampleAngleConstraint] [1, 2, 3, 4] (by decide)⟩

theorem accumBodyForces_append {R : Type} [CommRing R]
    (cs₁ cs₂ : List (ConstraintInfo R)) (lam : List R) (off b : Nat) :
    accumBodyForces (cs₁ ++ cs₂) lam off b =
      accumBodyForces cs₁ lam off b
        + accumBodyForces cs₂ lam (off + totalEquationCount cs₁) b := by
  induction cs₁ generalizing off with
  | nil => simp [accumBodyForces, totalEquationCount]
  | cons c rest ih =>
      have ht : totalEquationCount (R := R) (c :: rest)
          = eqCount c + totalEquationCount rest := by
        simp [totalEquationCount]
      simp only [List.cons_append, accumBodyForces, List.append_eq]
      rw [ih, ht, ← Nat.add_assoc]
      exact (add_assoc _ _ _).symm

theorem accumBodyForces_congr_lambda {R : Type} [CommRing R]
    (cs : List (ConstraintInfo R)) (lam lam' : List R) (off b : Nat)
    (h : ∀ i, i < totalEquationCount cs →
      lam.getD (off + i) 0 = lam'.getD (off + i) 0) :
    accumBodyForces cs lam off b = accumBodyForces cs lam' off b := by
  induction cs generalizing off with
  | nil => rfl
  | cons c rest ih =>
      have ht : totalEquationCount (R := R) (c :: rest)
          = eqCount c + totalEquationCount rest := by
        simp [totalEquationCount]
      rw [accumBodyForces, accumBodyForces]
      refine congrArg₂ (· + ·) ?_ ?_
      · by_cases hb : b ∈ c.touches
        · rw [if_pos hb, if_pos hb]
          refine Finset.sum_congr rfl fun i hi => ?_
          rw [h i (by rw [ht]; have := Finset.mem_range.mp hi; omega)]
        · rw [if_neg hb, if_neg hb]
      · refine ih (off + eqCount c) fun i hi => ?_
        have := h (eqCount c + i) (by rw [ht]; omega)
        rw [show off + eqCount c + i = off + (eqCount c + i) from by omega]
        exact this

theorem accumBodyForces_shift {R : Type} [CommRing R]
    (cs : List (ConstraintInfo R)) (l₁ l₂ : List R) (off b : Nat) :
    accumBodyForces cs (l₁ ++ l₂) (l₁.length + off) b
      = accumBodyForces cs l₂ off b := by
  induction cs generalizing off with
  | nil => rfl
  | cons c rest ih =>
      rw [accumBodyForces, accumBodyForces]
      refine congrArg₂ (· + ·) ?_ ?_
      · by_cases hb : b ∈ c.touches
        · rw [if_pos hb, if_pos hb]
          refine Finset.sum_congr rfl fun i _ => ?_
          rw [show l₁.length + off + i = l₁.length + (off + i) from by omega,
            List.getD_append_right l₁ l₂ 0 (l₁.length + (off + i)) (by omega),
            Nat.add_sub_cancel_left]
        · rw [if_neg hb, if_neg hb]
      · rw [show l₁.length + off + eqCount c = l₁.length + (off + eqCount c)
          from by omega]
        exact ih (off + eqCount c)

/-- Claim C5: constraint forces are additive over the constraint set — for a
realized state, the per-body force computed for the concatenation of two
constraint lists (with the correspondingly concatenated multiplier vector)
is the sum of the per-body forces computed for each list separately. -/
theorem constraint_forces_additive {R : Type} [CommRing R]
    (realized : Stage) (cs₁ cs₂ : List (ConstraintInfo R))
    (lam₁ lam₂ : List R) (h : Stage.position ≤ realized)
    (hlen : lam₁.length = totalEquationCount cs₁) :
    ∃ F G F₁ G₁ F₂ G₂,
      calcConstraintForcesFromMultipliers realized (cs₁ ++ cs₂) (lam₁ ++ lam₂)
        = .ok (F, G) ∧
      calcConstraintForcesFromMultipliers realized cs₁ lam₁ = .ok (F₁, G₁) ∧
      calcConstraintForcesFromMultipliers realized cs₂ lam₂ = .ok (F₂, G₂) ∧
      ∀ b, F b = F₁ b + F₂ b := by
  refine ⟨accumBodyForces (cs₁ ++ cs₂) (lam₁ ++ lam₂) 0,
    accumMobForces (cs₁ ++ cs₂) (lam₁ ++ lam₂) 0,
    accumBodyForces cs₁ lam₁ 0, accumMobForces cs₁ lam₁ 0,
    accumBodyForces cs₂ lam₂ 0, accumMobForces cs₂ lam₂ 0, ?_, ?_, ?_, ?_⟩
  · simp [calcConstraintForcesFromMultipliers, h]
  · simp [calcConstraintForcesFromMultipliers, h]
  · simp [calcConstraintForcesFromMultipliers, h]
  · intro b
    rw [accumBodyForces_append]
    refine congrArg₂ (· + ·) ?_ ?_
    · refine accumBodyForces_congr_lambda cs₁ _ _ 0 b fun i hi => ?_
      rw [List.getD_append lam₁ lam₂ 0 (0 + i) (by omega)]
    · rw [show (0 : Nat) + totalEquationCount cs₁ = lam₁.length + 0 from by omega]
      exact accumBodyForces_shift cs₂ lam₁ lam₂ 0 b

/-- Witness for C5: additivity applied to one concrete Ball constraint and
one concrete ConstantAngle constraint over `ℚ`. -/
theorem constraint_forces_additive_witness :
    (Stage.position ≤ Stage.position) ∧
    (([1, 2, 3] : List ℚ).length
      = totalEquationCount [exampleBallConstraint]) ∧
    (∃ F G F₁ G₁ F₂ G₂,
      calcConstraintForcesFromMultipliers Stage.position
        ([exampleBallConstraint] ++ [exampleAngleConstraint])
        (([1, 2, 3] : List ℚ) ++ [4]) = .ok (F, G) ∧
      calcConstraintForcesFromMultipliers Stage.position
        [exampleBallConstraint] ([1, 2, 3] : List ℚ) = .ok (F₁, G₁) ∧
      calcConstraintForcesFromMultipliers Stage.position
        [exampleAngleConstraint] ([4] : List ℚ) = .ok (F₂, G₂) ∧
      ∀ b, F b = F₁ b + F₂ b) :=
  ⟨by decide, by decide,
    constraint_forces_additive Stage.position [exampleBallConstraint]
      [exampleAngleConstraint] [1, 2, 3] [4] (by decide) (by decide)⟩

/-- Claim C8: after `realizeTopology` the tree is frozen — every subsequent
`addBody` fails with `TopologyError` (and, at any time, `addBody` with a
parent index naming neither Ground nor an existing body fails with
`TopologyError`); since `addBody` reports the error instead of returning a
new topology, the topology is left unchanged. -/
theorem addBody_after_finalize_errors (t : MatterTopology) (p : Nat)
    (m : MobilizerKind) :
    addBody (realizeTopology t) p m = .error .topologyError ∧
    (∀ t2 : MatterTopology, ¬ p < t2.bodies.length + 1 →
      addBody t2 p m = .error .topologyError) := by
  constructor
  · simp [addBody, realizeTopology]
  · intro t2 hp
    by_cases hf : t2.finalized <;> simp [addBody, hf, hp]

/-- Witness for C8: the error branches hit on a concrete empty topology and
the out-of-range parent index 5. -/
theorem addBody_after_finalize_errors_witness :
    (¬ (5 : Nat) < emptyMatterTopology.bodies.length + 1) ∧
    addBody (realizeTopology emptyMatterTopology) 5 .pin
      = .error .topologyError ∧
    addBody emptyMatterTopology 5 .pin = .error .topologyError :=
  ⟨by decide,
    (addBody_after_finalize_errors emptyMatterTopology 5 .pin).1,
    (addBody_after_finalize_errors emptyMatterTopology 5 .pin).2
      emptyMatterTopology (by decide)⟩

theorem reactionAt_eq {R : Type} [CommRing R] (nb : Nat) (parent : Nat → Nat)
    (own : Nat → SpatialVec R) (i : Nat) :
    reactionAt nb parent own i
      = own i + ∑ j in (Finset.range nb).filter (fun j => parent j = i ∧ i < j),
          reactionAt nb parent own j := by
  rw [reactionAt]
  congr 1
  exact Finset.sum_attach _ _

theorem reaction_ground_funnels {R : Type} [CommRing R] (nb : Nat)
    (parent : Nat → Nat) (own : Nat → SpatialVec R) (hnb : 0 < nb)
    (hwf : ∀ j, 0 < j → j < nb → parent j < j) :
    reactionAt nb parent own 0 = ∑ i in Finset.range nb, own i := by
  have hfilter : ∀ i, (Finset.range nb).filter (fun j => parent j = i ∧ i < j)
      = ((Finset.range nb).filter (fun j => 0 < j)).filter
          (fun j => parent j = i) := by
    intro i
    ext j
    simp only [Finset.mem_filter, Finset.mem_range]
    constructor
    · rintro ⟨hj, hpj, hij⟩
      exact ⟨⟨hj, by omega⟩, hpj⟩
    · rintro ⟨⟨hj, hj0⟩, hpj⟩
      exact ⟨hj, hpj, by have := hwf j hj0 hj; omega⟩
  have hA : ∑ i in Finset.range nb, reactionAt nb parent own i
      = (∑ i in Finset.range nb, own i)
        + ∑ j in (Finset.range nb).filter (fun j => 0 < j),
            reactionAt nb parent own j := by
    calc ∑ i in Finset.range nb, reactionAt nb parent own i
        = ∑ i in Finset.range nb,
            (own i + ∑ j in (Finset.range nb).filter
              (fun j => parent j = i ∧ i < j), reactionAt nb parent own j) :=
          Finset.sum_congr rfl fun i _ => reactionAt_eq nb parent own i
      _ = (∑ i in Finset.range nb, own i)
          + ∑ i in Finset.range nb, ∑ j in (Finset.range nb).filter
              (fun j => parent j = i ∧ i < j), reactionAt nb parent own j :=
          Finset.sum_add_distrib
      _ = (∑ i in Finset.range nb, own i)
          + ∑ j in (Finset.range nb).filter (fun j => 0 < j),
              reactionAt nb parent own j := by
          congr 1
          calc ∑ i in Finset.range nb, ∑ j in (Finset.range nb).filter
                (fun j => parent j = i ∧ i < j), reactionAt nb parent own j
              = ∑ i in Finset.range nb,
                  ∑ j in ((Finset.range nb).filter (fun j => 0 < j)).filter
                    (fun j => parent j = i), reactionAt nb parent own j :=
                Finset.sum_congr rfl fun i _ => by rw [hfilter i]
            _ = ∑ j in (Finset.range nb).filter (fun j => 0 < j),
                  reactionAt nb parent own j := by
                refine Finset.sum_fiberwise_of_maps_to ?_ _
                intro j hj
                simp only [Finset.mem_filter, Finset.mem_range] at hj
                simp only [Finset.mem_range]
                have := hwf j hj.2 hj.1
                omega
  have hsplit : ∑ i in Finset.range nb, reactionAt nb parent own i
      = reactionAt nb parent own 0
        + ∑ j in (Finset.range nb).filter (fun j => 0 < j),
            reactionAt nb parent own j := by
    rw [← Finset.sum_filter_add_sum_filter_not (Finset.range nb)
      (fun j => 0 < j) (reactionAt nb parent own), add_comm]
    congr 1
    have : (Finset.range nb).filter (fun j => ¬ 0 < j) = {0} := by
      ext j
      simp only [Finset.mem_filter, Finset.mem_range, Finset.mem_singleton]
      omega
    rw [this, Finset.sum_singleton]
  have := hsplit.symm.trans hA
  exact add_right_cancel this

/-- Claim C4: in the output of `calcMobilizerReactionForces`, position 0 is
reserved for Ground and reports the force needed to hold the whole assembly
fixed — the negative of the total force transmitted into Ground, which
funnels every body's net spatial-force requirement — while every position
`i ≥ 1` holds the mobilizer reaction of body `i`, so Ground never appears
as an ordinary reaction entry. -/
theorem mobilizer_reaction_ground_slot {R : Type} [CommRing R] (nb : Nat)
    (parent : Nat → Nat) (own : Nat → SpatialVec R) (hnb : 0 < nb)
    (hwf : ∀ j, 0 < j → j < nb → parent j < j) :
    (calcMobilizerReactionForces nb parent own).getD 0 0
        = -(totalForceIntoGround nb parent own) ∧
    totalForceIntoGround nb parent own
        = (∑ i in Finset.range nb, own i) - own 0 ∧
    ∀ i, 0 < i → i < nb →
      (calcMobilizerReactionForces nb parent own).getD i 0
        = reactionAt nb parent own i := by
  have hgetD : ∀ i, i < nb → (calcMobilizerReactionForces nb parent own).getD i 0
      = (if i = 0 then -(totalForceIntoGround nb parent own)
          else reactionAt nb parent own i) := by
    intro i hi
    rw [calcMobilizerReactionForces, List.getD_eq_getElem?_getD,
      List.getElem?_map, List.getElem?_range hi]
    rfl
  refine ⟨?_, ?_, ?_⟩
  · rw [hgetD 0 hnb, if_pos rfl]
  · have h0 := reactionAt_eq nb parent own 0
    have hg := reaction_ground_funnels nb parent own hnb hwf
    rw [hg] at h0
    have : totalForceIntoGround nb parent own
        = ∑ j in (Finset.range nb).filter (fun j => parent j = 0 ∧ 0 < j),
            reactionAt nb parent own j := rfl
    rw [this]
    -- `∑ own = own 0 + ∑ children of ground` rearranged
    exact eq_sub_of_add_eq' h0.symm
  · intro i hi0 hinb
    rw [hgetD i hinb, if_neg (by omega)]

/-- Witness for C4: the ground-slot theorem applied to a concrete
three-body chain over `ℚ` (each body's parent is its predecessor). -/
theorem mobilizer_reaction_ground_slot_witness :
    ((0 : Nat) < 3) ∧
    (∀ j, 0 < j → j < 3 → (fun j => j - 1) j < j) ∧
    ((calcMobilizerReactionForces 3 (fun j => j - 1)
        (fun i => (((i : ℚ), 0, 1), (2, (i : ℚ), 0)))).getD 0 0
      = -(totalForceIntoGround 3 (fun j => j - 1)
          (fun i => (((i : ℚ), 0, 1), (2, (i : ℚ), 0)))) ∧
    totalForceIntoGround 3 (fun j => j - 1)
        (fun i => (((i : ℚ), 0, 1), (2, (i : ℚ), 0)))
      = (∑ i in Finset.range 3, (fun i => (((i : ℚ), 0, 1), (2, (i : ℚ), 0))) i)
          - (fun i => (((i : ℚ), 0, 1), (2, (i : ℚ), 0))) 0 ∧
    ∀ i, 0 < i → i < 3 →
      (calcMobilizerReactionForces 3 (fun j => j - 1)
          (fun i => (((i : ℚ), 0, 1), (2, (i : ℚ), 0)))).getD i 0
        = reactionAt 3 (fun j => j - 1)
            (fun i => (((i : ℚ), 0, 1), (2, (i : ℚ), 0))) i) :=
  ⟨by omega, fun j h1 h2 => by show j - 1 < j; omega,
    mobilizer_reaction_ground_slot 3 (fun j => j - 1)
      (fun i => (((i : ℚ), 0, 1), (2, (i : ℚ), 0)))
      (by omega) (fun j h1 h2 => by show j - 1 < j; omega)⟩

theorem find?_first {α : Type} (p : α → Bool) (l : List α) (a : α)
    (h : l.find? p = some a) :
    ∃ pre post, l = pre ++ a :: post ∧ p a = true ∧ ∀ b ∈ pre, p b = false := by
  induction l with
  | nil => simp at h
  | cons x xs ih =>
      by_cases hp : p x = true
      · rw [List.find?_cons_of_pos _ hp] at h
        obtain rfl : x = a := by injection h
        exact ⟨[], xs, rfl, hp, by simp⟩
      · rw [List.find?_cons_of_neg _ hp] at h
        obtain ⟨pre, post, hsplit, hpa, hpre⟩ := ih h
        refine ⟨x :: pre, post, by rw [hsplit]; rfl, hpa, ?_⟩
        intro b hb
        rcases List.mem_cons.mp hb with hb | hb
        · subst hb
          exact Bool.not_eq_true _ ▸ hp
        · exact hpre b hb

/-- Claim C10 counterexample: the claim reads "returns the supplied default
`def` exactly when the element has no attribute named `name`"; on the
concrete element with attribute `a="d"`, `getOptionalAttributeValue` with
name `a` and default `d` returns the default string even though
`find_attribute` does not return `attribute_end()`, so the "exactly when"
biconditional is false at this input. -/
theorem getOptionalAttributeValue_default_not_absent :
    Xml.getOptionalAttributeValue sampleElement "a" "d" = "d" ∧
    Xml.find_attribute sampleElement "a" ≠ none := by
  refine ⟨rfl, ?_⟩
  intro h
  simp [Xml.find_attribute, sampleElement, List.find?] at h

/-- Claim C10 (amended): `getOptionalAttributeValue(name, def)` returns the
supplied default `def` if the element has no attribute named `name`
(`find_attribute` returns `attribute_end()`), and otherwise returns the
value of the first attribute whose name equals `name`. -/
theorem getOptionalAttributeValue_spec (e : Xml.Element) (nm dflt : String) :
    (Xml.find_attribute e nm = none →
      Xml.getOptionalAttributeValue e nm dflt = dflt) ∧
    (∀ a, Xml.find_attribute e nm = some a →
      Xml.getOptionalAttributeValue e nm dflt = a.value ∧
      a.name = nm ∧
      ∃ pre post, e.attributes = pre ++ a :: post ∧
        ∀ b ∈ pre, b.name ≠ nm) := by
  constructor
  · intro h
    simp [Xml.getOptionalAttributeValue, h]
  · intro a h
    refine ⟨by simp [Xml.getOptionalAttributeValue, h], ?_, ?_⟩
    · have := List.find?_some h
      simpa using this
    · obtain ⟨pre, post, hsplit, _, hpre⟩ :=
        find?_first (fun x => x.name == nm) e.attributes a (by exact h)
      refine ⟨pre, post, hsplit, fun b hb => ?_⟩
      have := hpre b hb
      simpa using this

/-- Witness for the amended C10: both branches of the theorem applied to the
concrete element with attribute `a="d"` — an absent name returns the
default, and the present name `a` returns the stored value. -/
theorem getOptionalAttributeValue_spec_witness :
    (Xml.find_attribute sampleElement "x" = none) ∧
    Xml.getOptionalAttributeValue sampleElement "x" "dd" = "dd" ∧
    (Xml.find_attribute sampleElement "a"
      = some { name := "a", value := "d" }) ∧
    (Xml.getOptionalAttributeValue sampleElement "a" "z"
        = (Xml.Attribute.mk "a" "d").value ∧
      (Xml.Attribute.mk "a" "d").name = "a" ∧
      ∃ pre post, sampleElement.attributes
          = pre ++ Xml.Attribute.mk "a" "d" :: post ∧
        ∀ b ∈ pre, b.name ≠ "a") :=
  ⟨by rfl,
    (getOptionalAttributeValue_spec sampleElement "x" "dd").1 (by rfl),
    by rfl,
    (getOptionalAttributeValue_spec sampleElement "a" "z").2
      (Xml.Attribute.mk "a" "d") (by rfl)⟩

theorem pinAccel_formula (th : ℝ) :
    pinAccel th = (10 * Real.cos th - 9.8 * Real.sin th) / 2 := by
  simp only [pinAccel, pinTorque, pivotToCom, comToBallPoint, rotZ, cross,
    gravityVec, pinInertiaAboutAxis, Prod.fst, Prod.snd, Prod.neg_mk]
  ring

/-- On the angle parametrization of the constrained free body, the Ball
constraint's position residual and both ConstantAngle residuals vanish: the
manifold cut out by the example's three constraints contains the
parametrized configurations. -/
theorem constraint_residuals_vanish (th : ℝ) :
    ballResidual th = 0 ∧ angleResidualX th = 0 ∧ angleResidualY th = 0 := by
  refine ⟨?_, ?_, ?_⟩
  · simp only [ballResidual, comPosOnManifold, pivotToCom]
    abel
  · simp only [angleResidualX, dot, rotZ, exAxis, ezAxis]
    ring
  · simp only [angleResidualY, dot, rotZ, eyAxis, ezAxis]
    ring

theorem freeNewtonEuler_iff (th om a : ℝ) :
    freeNewtonEuler th om a ↔ a = pinAccel th := by
  rw [pinAccel_formula]
  constructor
  · rintro ⟨⟨Fc1, Fc2, Fc3⟩, lx, ly, hN, hE⟩
    simp only [comAccelOnManifold, rotZ, gravityVec, comToBallPoint, cross,
      exAxis, eyAxis, ezAxis, Prod.mk.injEq, Prod.smul_mk, smul_eq_mul,
      Prod.mk_add_mk, mul_zero, mul_one, zero_mul, one_mul] at hN hE
    obtain ⟨hN1, hN2, _⟩ := hN
    obtain ⟨_, _, hE3⟩ := hE
    have hpyth := Real.sin_sq_add_cos_sq th
    linear_combination (hE3 + Real.sin th * hN2 + Real.cos th * hN1
      - a * hpyth) / 2
  · intro ha
    refine ⟨(a * Real.cos th - om ^ 2 * Real.sin th - 10,
             a * Real.sin th + om ^ 2 * Real.cos th + 9.8,
             -3),
            -3 * Real.sin th, 3 * Real.cos th, ?_, ?_⟩
    · simp only [comAccelOnManifold, rotZ, gravityVec, Prod.mk.injEq,
        Prod.smul_mk, smul_eq_mul, Prod.mk_add_mk, mul_zero, mul_one,
        zero_mul, one_mul]
      refine ⟨by ring, by ring, by ring⟩
    · have hpyth := Real.sin_sq_add_cos_sq th
      simp only [comToBallPoint, rotZ, cross, exAxis, eyAxis, ezAxis,
        Prod.mk.injEq, Prod.smul_mk, smul_eq_mul, Prod.mk_add_mk, mul_zero,
        mul_one, zero_mul, one_mul]
      refine ⟨by ring, by ring, ?_⟩
      linear_combination 2 * ha + a * hpyth

theorem abs_sin_sub_le (a b : ℝ) : |Real.sin a - Real.sin b| ≤ |a - b| := by
  rw [Real.sin_sub_sin]
  have h1 : |Real.sin ((a - b) / 2)| ≤ |(a - b) / 2| := Real.abs_sin_le_abs
  have h2 : |Real.cos ((a + b) / 2)| ≤ 1 := Real.abs_cos_le_one _
  calc |2 * Real.sin ((a - b) / 2) * Real.cos ((a + b) / 2)|
      = 2 * |Real.sin ((a - b) / 2)| * |Real.cos ((a + b) / 2)| := by
        rw [abs_mul, abs_mul]
        norm_num
    _ ≤ 2 * |(a - b) / 2| * 1 := by
        apply mul_le_mul ?_ h2 (abs_nonneg _) ?_
        · exact mul_le_mul_of_nonneg_left h1 (by norm_num)
        · positivity
    _ = |a - b| := by
        rw [abs_div]
        norm_num
        ring

theorem abs_cos_sub_le (a b : ℝ) : |Real.cos a - Real.cos b| ≤ |a - b| := by
  rw [Real.cos_sub_cos]
  have h1 : |Real.sin ((a - b) / 2)| ≤ |(a - b) / 2| := Real.abs_sin_le_abs
  have h2 : |Real.sin ((a + b) / 2)| ≤ 1 := Real.abs_sin_le_one _
  calc |-2 * Real.sin ((a + b) / 2) * Real.sin ((a - b) / 2)|
      = 2 * |Real.sin ((a + b) / 2)| * |Real.sin ((a - b) / 2)| := by
        rw [abs_mul, abs_mul]
        norm_num
    _ ≤ 2 * 1 * |(a - b) / 2| := by
        apply mul_le_mul ?_ h1 (abs_nonneg _) ?_
        · exact mul_le_mul_of_nonneg_left h2 (by norm_num)
        · positivity
    _ = |a - b| := by
        rw [abs_div]
        norm_num
        ring

theorem pendulumField_lipschitz (t : ℝ) : LipschitzWith 10 (pendulumField t) := by
  refine LipschitzWith.of_dist_le_mul fun p q => ?_
  have hcoe : ((10 : NNReal) : ℝ) = 10 := by norm_num
  simp only [pendulumField, Prod.dist_eq, Real.dist_eq]
  rw [hcoe]
  have hacc : |pinAccel p.1 - pinAccel q.1| ≤ 9.9 * |p.1 - q.1| := by
    rw [pinAccel_formula, pinAccel_formula]
    have hs := abs_sin_sub_le p.1 q.1
    have hc := abs_cos_sub_le p.1 q.1
    have hrw : (10 * Real.cos p.1 - 9.8 * Real.sin p.1) / 2
          - (10 * Real.cos q.1 - 9.8 * Real.sin q.1) / 2
        = 5 * (Real.cos p.1 - Real.cos q.1)
          - 4.9 * (Real.sin p.1 - Real.sin q.1) := by
      ring
    rw [hrw]
    calc |5 * (Real.cos p.1 - Real.cos q.1)
          - 4.9 * (Real.sin p.1 - Real.sin q.1)|
        ≤ |5 * (Real.cos p.1 - Real.cos q.1)|
          + |4.9 * (Real.sin p.1 - Real.sin q.1)| := abs_sub _ _
      _ = 5 * |Real.cos p.1 - Real.cos q.1|
          + 4.9 * |Real.sin p.1 - Real.sin q.1| := by
          rw [abs_mul, abs_mul]
          norm_num
      _ ≤ 5 * |p.1 - q.1| + 4.9 * |p.1 - q.1| := by
          have hc5 := mul_le_mul_of_nonneg_left hc (by norm_num : (0:ℝ) ≤ 5)
          have hs49 := mul_le_mul_of_nonneg_left hs (by norm_num : (0:ℝ) ≤ 4.9)
          linarith
      _ = 9.9 * |p.1 - q.1| := by ring
  apply max_le
  · have h1 : |p.2 - q.2| ≤ max |p.1 - q.1| |p.2 - q.2| := le_max_right _ _
    have h0 : (0:ℝ) ≤ max |p.1 - q.1| |p.2 - q.2| :=
      le_trans (abs_nonneg _) h1
    nlinarith
  · have h1 : |p.1 - q.1| ≤ max |p.1 - q.1| |p.2 - q.2| := le_max_left _ _
    have h0 : (0:ℝ) ≤ max |p.1 - q.1| |p.2 - q.2| :=
      le_trans (abs_nonneg _) h1
    nlinarith [hacc]

/-- Claim C1: a body on a Free mobilizer constrained by a Ball constraint
and two ConstantAngle constraints (the `pendulum2` construction, which pins
every degree of freedom except rotation about the pin axis) follows, from
an equivalent initial angle and angular rate, exactly the same angle
trajectory over the time interval `[0, 1]` as the same body on a Pin
mobilizer (`pendulum1`) — in the exact-real model the trajectories are
equal, hence equal to within any integration tolerance. -/
theorem free_constrained_pendulum_matches_pin (thf omf thp omp : ℝ → ℝ)
    (hf : FreeConstrainedTrajectory thf omf) (hp : PinTrajectory thp omp)
    (hth0 : thf 0 = thp 0) (hom0 : omf 0 = omp 0) :
    ∀ t ∈ Set.Icc (0 : ℝ) 1, thf t = thp t ∧ omf t = omp t := by
  have hF' : ∀ t, HasDerivAt (fun t => (thf t, omf t))
      (pendulumField t (thf t, omf t)) t := by
    intro t
    obtain ⟨hth, a, hbal, hom⟩ := hf t
    have ha : a = pinAccel (thf t) := (freeNewtonEuler_iff _ _ _).mp hbal
    exact hth.prod (ha ▸ hom)
  have hG' : ∀ t, HasDerivAt (fun t => (thp t, omp t))
      (pendulumField t (thp t, omp t)) t :=
    fun t => ((hp t).1).prod ((hp t).2)
  have hFc : ContinuousOn (fun t => (thf t, omf t)) (Set.Icc 0 1) :=
    (continuous_iff_continuousAt.mpr fun t => (hF' t).continuousAt).continuousOn
  have hGc : ContinuousOn (fun t => (thp t, omp t)) (Set.Icc 0 1) :=
    (continuous_iff_continuousAt.mpr fun t => (hG' t).continuousAt).continuousOn
  have heq : Set.EqOn (fun t => (thf t, omf t)) (fun t => (thp t, omp t))
      (Set.Icc 0 1) := by
    refine ODE_solution_unique pendulumField_lipschitz hFc
      (fun t _ => (hF' t).hasDerivWithinAt) hGc
      (fun t _ => (hG' t).hasDerivWithinAt) ?_
    exact Prod.ext hth0 hom0
  intro t ht
  have h := heq ht
  exact ⟨congrArg Prod.fst h, congrArg Prod.snd h⟩

theorem pinAccel_equilibrium : pinAccel equilibriumAngle = 0 := by
  rw [pinAccel_formula, equilibriumAngle]
  have hcos : Real.cos (Real.arctan (10 / 9.8)) ≠ 0 :=
    ne_of_gt (Real.cos_arctan_pos _)
  have htan := Real.tan_arctan ((10 : ℝ) / 9.8)
  rw [Real.tan_eq_sin_div_cos, div_eq_div_iff hcos (by norm_num)] at htan
  linarith [htan]

/-- Witness for C1: the constant equilibrium trajectory (at the angle where
the in-plane gravity torque vanishes) satisfies both trajectory predicates,
and the theorem applied to it yields equality on `[0, 1]`. -/
theorem free_constrained_pendulum_matches_pin_witness :
    FreeConstrainedTrajectory (fun _ => equilibriumAngle) (fun _ => 0) ∧
    PinTrajectory (fun _ => equilibriumAngle) (fun _ => 0) ∧
    ∀ t ∈ Set.Icc (0 : ℝ) 1,
      (fun _ : ℝ => equilibriumAngle) t = (fun _ : ℝ => equilibriumAngle) t ∧
      (fun _ : ℝ => (0 : ℝ)) t = (fun _ : ℝ => (0 : ℝ)) t := by
  have hfree : FreeConstrainedTrajectory (fun _ => equilibriumAngle)
      (fun _ => 0) := by
    intro t
    refine ⟨hasDerivAt_const t _, 0, ?_, hasDerivAt_const t _⟩
    exact (freeNewtonEuler_iff _ _ _).mpr pinAccel_equilibrium.symm
  have hpin : PinTrajectory (fun _ => equilibriumAngle) (fun _ => 0) := by
    intro t
    exact ⟨hasDerivAt_const t _, by
      simpa [pinAccel_equilibrium] using hasDerivAt_const t (0 : ℝ)⟩
  exact ⟨hfree, hpin,
    free_constrained_pendulum_matches_pin _ _ _ _ hfree hpin rfl rfl⟩

/-- Claim C9: `realize` is idempotent — realizing the same stage twice with
no intervening mutation leaves the state, including every cached quantity,
identical to its value after the first call. -/
theorem realize_idempotent (target : Stage) (s : SimState) :
    realize target (realize target s) = realize target s := by
  apply SimState.ext
  · rfl
  · rfl
  · rfl
  · simp only [realize]
    by_cases h : s.realizedThrough ≤ target
    · simp [h, stage_le_refl]
    · simp [h]
  · funext stg
    simp only [realize]
    by_cases h : stg ≤ target
    · cases hc : s.cache stg <;> simp [h, hc]
    · simp [h]

end SimbodySpec
